import Mathlib

/-!
Shallow embedding of the saltext-sap_likey repository.

The repository has two Python source files:
* `_modules/sap_likey.py` — the execution module wrapping the `saplikey`
  command line tool: the output parser of `saplikey -show` (function `show`)
  and the license-file parser `read_lic_file`, plus thin wrappers `info`,
  `install`, `delete`, `temp` that return `False` on non-zero exit.
* `_states/sap_likey.py` — the state functions `license_present` and
  `license_absent` that reconcile observed licenses against desired state.

External effects (running the tool, reading files, chown) are modelled by an
environment of oracles; the embedding records the trace of mutating calls
(`delete`, `install`, `temp`, `chown`).  A Python run that raises an uncaught
exception is modelled by the `Out.crash` constructor, which still carries the
trace of calls made before the exception.
-/

/-- ASCII whitespace characters recognised by Python `str.strip`. -/
def isPySpace (c : Char) : Bool :=
  c == ' ' || c == '\t' || c == '\n' || c == '\r' || c == '\x0b' || c == '\x0c'

/-- Python `str.strip()` over ASCII whitespace. -/
def pyStrip (s : String) : String :=
  String.mk (((s.toList.dropWhile isPySpace).reverse.dropWhile isPySpace).reverse)

/-- Tests whether the first list is an initial segment of the second. -/
def leadsWith : List Char → List Char → Bool
  | [], _ => true
  | _ :: _, [] => false
  | p :: ps, c :: cs => p == c && leadsWith ps cs

/-- Substring test on character lists (Python `pat in s`). -/
def hasSub (pat : List Char) : List Char → Bool
  | [] => leadsWith pat []
  | c :: cs => leadsWith pat (c :: cs) || hasSub pat cs

/-- Python `s.endswith(suffix)`. -/
def pyEndsWith (s suffix : String) : Bool :=
  leadsWith suffix.toList.reverse s.toList.reverse

/-- Python `s.startswith(pre)`. -/
def strStarts (s pre : String) : Bool :=
  leadsWith pre.toList s.toList

/-- Python `s.lower()` (ASCII). -/
def pyLower (s : String) : String :=
  String.mk (s.toList.map Char.toLower)

/-- Collapse runs of underscores, Python `re.sub("_+", "_", s)`. -/
def squeezeU : List Char → List Char
  | [] => []
  | ['_'] => ['_']
  | '_' :: '_' :: rest => squeezeU ('_' :: rest)
  | '_' :: c :: rest => '_' :: squeezeU (c :: rest)
  | c :: rest => c :: squeezeU rest

/-- Splits a character list at the first occurrence of `sep`. -/
def splitCharFirst (sep : Char) : List Char → Option (List Char × List Char)
  | [] => none
  | c :: rest =>
    if c == sep then some ([], rest)
    else match splitCharFirst sep rest with
      | none => none
      | some q => some (c :: q.1, q.2)

/-- Python `s.split(sep, 1)` when `sep` occurs in `s`; `none` when it does
not (where the two-variable unpacking would raise `ValueError`). -/
def splitFirst (sep : Char) (s : String) : Option (String × String) :=
  match splitCharFirst sep s.toList with
  | none => none
  | some q => some (String.mk q.1, String.mk q.2)

/-- Python `s.split(sep)` on a single-character separator. -/
def pySplitChar (sep : Char) : List Char → List (List Char)
  | [] => [[]]
  | c :: cs =>
    if c == sep then [] :: pySplitChar sep cs
    else match pySplitChar sep cs with
      | [] => [[c]]
      | p :: rest => (c :: p) :: rest

/-- Splits a string on newlines, Python `stdout.split("\n")`. -/
def pySplitLines (s : String) : List String :=
  (pySplitChar '\n' s.toList).map String.mk

/-- Python dict modelled as an association list with unique keys. -/
abbrev Dict := List (String × String)

/-- Python `d[k]` lookup; `none` models a raised `KeyError`. -/
def dictGet (d : Dict) (k : String) : Option String :=
  match d with
  | [] => none
  | q :: rest => if q.1 = k then some q.2 else dictGet rest k

/-- Python `d[k] = v`: update in place when present, append when absent. -/
def dictInsert (d : Dict) (k v : String) : Dict :=
  match d with
  | [] => [(k, v)]
  | q :: rest => if q.1 = k then (k, v) :: rest else q :: dictInsert rest k v

/-- Python guarded `if k in d: del d[k]` (no-op when the key is absent). -/
def dictErase (d : Dict) (k : String) : Dict :=
  d.filter (fun q => !(q.1 == k))

/-- Python dict equality: same key set, same values. -/
def dictEqb (a b : Dict) : Bool :=
  a.all (fun q => dictGet b q.1 == some q.2) &&
    b.all (fun q => dictGet a q.1 == some q.2)

/-- Result of running a piece of Python code that may raise. -/
inductive PyResult (α : Type) where
  | ok (a : α)
  | raised
deriving DecidableEq, Repr

/-- Key normalisation of the `-show` block parser:
`key.strip().lower().replace(" ", "_")` then `re.sub("_+", "_", key)`. -/
def showNormKey (k : String) : String :=
  String.mk (squeezeU (((pyStrip k).toList.map Char.toLower).map
    (fun c => if c = ' ' then '_' else c)))

/-- Block body loop of `show` (`while lines[i]:`), starting two lines past the
marker line.  Running past the end of the line list models the `IndexError`
of `lines[i]`; a non-empty line without a colon models the `ValueError` of
the two-variable unpacking of `split(":", 1)`. -/
def show_block : List String → Dict → PyResult Dict
  | [], _ => .raised
  | l :: rest, lic =>
    if l = "" then .ok lic
    else match splitFirst ':' l with
      | none => .raised
      | some q => show_block rest (dictInsert lic (showNormKey q.1) (pyStrip q.2))

/-- Outer scan of `show`: every line ending in `"License Key:"` opens a block
starting two lines later; the Python `for` counter is reset each iteration, so
scanning continues from the line after the marker. -/
def show_scan : List String → PyResult (List Dict)
  | [] => .ok []
  | l :: rest =>
    if pyEndsWith l "License Key:" then
      match show_block (rest.drop 1) [] with
      | .raised => .raised
      | .ok lic =>
        match show_scan rest with
        | .raised => .raised
        | .ok ls => .ok (lic :: ls)
    else show_scan rest

/-- The parsing part of the execution-module function `show`, applied to the
lines of the command's standard output. -/
def parse_show (lines : List String) : PyResult (List Dict) :=
  show_scan lines

/-- The execution-module function `show` from the command result onward:
returns `False` (here `ok none`) on non-zero exit, otherwise parses the
standard output. -/
def show_mod (retcode : Int) (stdout : String) : PyResult (Option (List Dict)) :=
  if retcode ≠ 0 then .ok none
  else match parse_show (pySplitLines stdout) with
    | .raised => .raised
    | .ok ls => .ok (some ls)

/-- The fixed key rename table of `read_lic_file`; unrecognized keys
(including `LKEY`) leave the record unchanged. -/
def lic_rename (lic : Dict) (k v : String) : Dict :=
  if k = "SAPSYSTEM" then dictInsert lic "system" v
  else if k = "HARDWARE-KEY" then dictInsert lic "hardware_key" v
  else if k = "INSTNO" then dictInsert lic "installation_number" v
  else if k = "BEGIN" then dictInsert lic "begin_of_validity" v
  else if k = "EXPIRATION" then dictInsert lic "end_of_validity" v
  else if k = "SWPRODUCTNAME" then dictInsert lic "software_product" v
  else if k = "SWPRODUCTLIMIT" then dictInsert lic "software_product_limit" v
  else if k = "SYSTEM-NR" then dictInsert lic "system_number" v
  else lic

/-- Marker test of `read_lic_file`: `"Begin SAP License" in line`. -/
def licMarker (l : String) : Bool :=
  hasSub "Begin SAP License".toList l.toList

/-- Block body loop of `read_lic_file`: consume `KEY=value` lines while the
index is in range, the line contains `=`, and the line is not a new marker.
Returns the record and the unconsumed remainder of the lines. -/
def lic_block : List String → Dict → Dict × List String
  | [], lic => (lic, [])
  | l :: rest, lic =>
    match splitFirst '=' l with
    | none => (lic, l :: rest)
    | some q =>
      if licMarker l then (lic, l :: rest)
      else lic_block rest (lic_rename lic q.1 (pyStrip q.2))

/-- Outer scan of `read_lic_file`: the `for` loop visits every line; each
marker line contributes the record parsed from the lines after it (block
lines never contain the marker, so revisiting them adds nothing). -/
def lic_scan : List String → List Dict
  | [] => []
  | l :: rest =>
    if licMarker l then (lic_block rest []).1 :: lic_scan rest
    else lic_scan rest

/-- The execution-module function `read_lic_file`, applied to the lines read
from the license file (as by `readlines()`, trailing newlines included). -/
def read_lic_file (lines : List String) : List Dict :=
  lic_scan lines

theorem lic_block_suffix_le (ls : List String) (d : Dict) :
    (lic_block ls d).2.length ≤ ls.length := by
  induction ls generalizing d with
  | nil => simp [lic_block]
  | cons l rest ih =>
    simp only [lic_block]
    cases splitFirst '=' l with
    | none => simp
    | some q =>
      by_cases hm : licMarker l
      · simp [hm]
      · simp only [hm, if_neg, Bool.false_eq_true, not_false_iff, ite_false]
        exact le_trans (ih _) (Nat.le_succ _)

/-- Modelled from the spec: `parse_license_file` as §4.1 words it — a marker
line opens a block, the subsequent `KEY=value` lines (until a line without
`=`, a new marker, or end of input) are mapped through the rename table and
the block is consumed, each block yielding one record, in file order. -/
def read_lic_file_spec : List String → List Dict
  | [] => []
  | l :: rest =>
    if licMarker l then
      (lic_block rest []).1 :: read_lic_file_spec (lic_block rest []).2
    else read_lic_file_spec rest
termination_by ls => ls.length
decreasing_by
  · exact Nat.lt_succ_of_le (lic_block_suffix_le rest [])
  · simp

/-- Arguments of one call to the execution-module function `delete`
(`name`, `sid`, `hwkey`, `product`; the latter two default to `"*"`). -/
structure DeleteCall where
  name : String
  sid : String
  hwkey : String
  product : String
deriving DecidableEq, Repr

/-- One mutating collaborator invocation made by a state function. -/
inductive Call where
  | delete (c : DeleteCall)
  | install (sid : String) (filename : String)
  | temp (sid : String) (product : String)
  | chown (uid : String) (gid : String) (path : String)
deriving DecidableEq, Repr

/-- Environment of the state functions: the dry-run flag `__opts__["test"]`,
the results of the read collaborators `sap_likey.info` / `sap_likey.show`
(`none` models their returning `False` on non-zero exit), the success of each
mutating collaborator, and the file-system lookups. -/
structure Env where
  test : Bool
  infoRes : Option Dict
  showRes : Option (List Dict)
  deleteOk : DeleteCall → Bool
  installOk : String → String → Bool
  tempOk : String → String → Bool
  fileLines : String → List String
  fileOwner : String → String
  userInfo : String → Dict

/-- Mutable state of one state-function run: the `old` and `new` change
lists, the trace of mutating calls, and the comment set so far. -/
structure StAcc where
  old : List String
  new : List String
  tr : List Call
  comment : String
deriving Repr, DecidableEq

/-- Continuation state after a phase of a state function: fall through,
early `return` with `result = False` and the given comment, or an uncaught
Python exception. -/
inductive PhaseRes where
  | cont (a : StAcc)
  | abort (a : StAcc) (c : String)
  | crash (a : StAcc)
deriving Repr, DecidableEq

/-- Sequencing of phases: `abort` and `crash` short-circuit. -/
def pthen (r : PhaseRes) (f : StAcc → PhaseRes) : PhaseRes :=
  match r with
  | .cont a => f a
  | r => r

/-- The returned `ret` dictionary: `changes = none` models the cleared empty
`{}`; `result` is Python's `True` / `False` / `None` tri-state. -/
structure Ret where
  name : String
  changes : Option (List String × List String)
  comment : String
  result : Option Bool
deriving Repr, DecidableEq

/-- Outcome of a state-function run: a returned `ret` plus the trace of
mutating calls, or an uncaught exception (trace up to the raise). -/
inductive Out where
  | ret (r : Ret) (tr : List Call)
  | crash (tr : List Call)
deriving Repr, DecidableEq

/-- Change lists of a run's outcome. -/
def outTrace : Out → List Call
  | .ret _ tr => tr
  | .crash tr => tr

/-- The returned `ret`, when the run did not raise. -/
def outRet : Out → Option Ret
  | .ret r _ => some r
  | .crash _ => none

/-- Trace recorded in a phase continuation. -/
def phaseTr : PhaseRes → List Call
  | .cont a => a.tr
  | .abort a _ => a.tr
  | .crash a => a.tr

/-- License description used in the change messages:
`"SAP system license {system} / {hardware_key} / {software_product}"`. -/
def licDesc3 (s h p : String) : String :=
  "SAP system license " ++ s ++ " / " ++ h ++ " / " ++ p

/-- Dry-run removal message of the state functions. -/
def wouldRemove (s h p : String) : String :=
  licDesc3 s h p ++ " would be removed"

/-- Failure comment of the foreign-SID removal loop. -/
def cantRemoveSid (s h p : String) : String :=
  "Could not remove license for SAP system license " ++ s ++ " / " ++ h ++ " / " ++ p

/-- Failure comment of the foreign-hardware-key removal loop. -/
def cantRemoveHw (s h p : String) : String :=
  "Could not remove license for system " ++ s ++ " / " ++ h ++ " / " ++ p

/-- Failure comment of the `license_absent` loop. -/
def cantRemoveAbs (s h p : String) : String :=
  "Could not remove license for " ++ s ++ " / " ++ h ++ " / " ++ p

/-- `license_present` lines 62-87: remove licenses whose `system` differs
from the target SID.  The delete call passes only `name=lic["system"]` and
`sid=name`, leaving `hwkey` and `product` at their `"*"` defaults. -/
def sidLoop (name : String) (env : Env) : List Dict → StAcc → PhaseRes
  | [], a => .cont a
  | lic :: rest, a =>
    match dictGet lic "system" with
    | none => .crash a
    | some s =>
      if s = name then sidLoop name env rest a
      else if env.test then
        match dictGet lic "hardware_key", dictGet lic "software_product" with
        | some h, some p => sidLoop name env rest { a with old := a.old ++ [wouldRemove s h p] }
        | _, _ => .crash a
      else
        let c : DeleteCall := ⟨s, name, "*", "*"⟩
        let a1 := { a with tr := a.tr ++ [Call.delete c] }
        if env.deleteOk c then
          match dictGet lic "hardware_key", dictGet lic "software_product" with
          | some h, some p => sidLoop name env rest { a1 with old := a1.old ++ [licDesc3 s h p] }
          | _, _ => .crash a1
        else
          match dictGet lic "hardware_key", dictGet lic "software_product" with
          | some h, some p => .abort a1 (cantRemoveSid s h p)
          | _, _ => .crash a1

/-- Phase for `remove_other_sid`: iterating over a `show` result of `False`
raises. -/
def sidPhase (name : String) (env : Env) (a : StAcc) : PhaseRes :=
  match env.showRes with
  | none => .crash a
  | some sys => sidLoop name env sys a

/-- `license_present` lines 88-115: remove licenses whose `hardware_key`
differs from the system's own hardware key.  The delete call passes
`name=lic["system"]`, `sid=name` and `hwkey=lic["hardware_key"]`, leaving
`product` at its `"*"` default. -/
def hwLoop (name hw : String) (env : Env) : List Dict → StAcc → PhaseRes
  | [], a => .cont a
  | lic :: rest, a =>
    match dictGet lic "hardware_key" with
    | none => .crash a
    | some h =>
      if h = hw then hwLoop name hw env rest a
      else if env.test then
        match dictGet lic "system", dictGet lic "software_product" with
        | some s, some p => hwLoop name hw env rest { a with old := a.old ++ [wouldRemove s h p] }
        | _, _ => .crash a
      else
        match dictGet lic "system" with
        | none => .crash a
        | some s =>
          let c : DeleteCall := ⟨s, name, h, "*"⟩
          let a1 := { a with tr := a.tr ++ [Call.delete c] }
          if env.deleteOk c then
            match dictGet lic "software_product" with
            | some p => hwLoop name hw env rest { a1 with old := a1.old ++ [licDesc3 s h p] }
            | none => .crash a1
          else
            match dictGet lic "software_product" with
            | some p => .abort a1 (cantRemoveHw s h p)
            | none => .crash a1

/-- Phase for `remove_other_hwkey`: `info["hardware_key"]` is evaluated first
(line 89), so an `info` result of `False` or a missing key raises before the
loop; iterating over a `show` result of `False` raises as well. -/
def hwPhase (name : String) (env : Env) (a : StAcc) : PhaseRes :=
  match env.infoRes with
  | none => .crash a
  | some ifo =>
    match dictGet ifo "hardware_key" with
    | none => .crash a
    | some hw =>
      match env.showRes with
      | none => .crash a
      | some sys => hwLoop name hw env sys a

/-- The in-place deletions of lines 125-130: the system-only fields are
removed from the system-sourced record before the comparison. -/
def stripSys (d : Dict) : Dict :=
  dictErase (dictErase (dictErase d "last_successful_check") "validity") "type_of_license_key"

/-- Inner loop of lines 123-133: walk the observed records, stripping each
visited record in place, until one equals the file record. -/
def findMatch (f : Dict) : List Dict → Bool × List Dict
  | [] => (false, [])
  | d :: rest =>
    let d1 := stripSys d
    if dictEqb f d1 = true then (true, d1 :: rest)
    else
      let q := findMatch f rest
      (q.1, d1 :: q.2)

/-- Outer loop of lines 121-136 over the file records, with `break` on the
first record not found; returns the `all_valid` flag of the loop (before the
`len > 0` conjunct) and the mutated observed list. -/
def allMatch : List Dict → List Dict → Bool × List Dict
  | [], sys => (true, sys)
  | f :: fs, sys =>
    let q := findMatch f sys
    if q.1 then allMatch fs q.2 else (false, q.2)

/-- Change messages built by a `for lic in ...` loop over records, reading
`system`, `hardware_key` and `software_product`; `none` models the `KeyError`
of a record missing one of them. -/
def licMsgs (suffix : String) : List Dict → Option (List String)
  | [] => some []
  | lic :: rest =>
    match dictGet lic "system", dictGet lic "hardware_key", dictGet lic "software_product" with
    | some s, some h, some p =>
      match licMsgs suffix rest with
      | some ms => some ((licDesc3 s h p ++ suffix) :: ms)
      | none => none
    | _, _, _ => none

/-- Lines 174-195: install the license file (after the ownership fix). -/
def fileInstall2 (name fname : String) (env : Env) (files : List Dict) (a : StAcc) : PhaseRes :=
  if env.test then
    match licMsgs " would be installed" files with
    | none => .crash a
    | some ms => .cont { a with new := a.new ++ ms, comment := "Installed licenses" }
  else
    let a1 := { a with tr := a.tr ++ [Call.install name fname] }
    if env.installOk name fname then
      match licMsgs "" files with
      | none => .crash a1
      | some ms => .cont { a1 with new := a1.new ++ ms, comment := "Installed licenses" }
    else .abort a1 ("Could not install licenses for system " ++ name)

/-- Lines 159-173: make sure the `<sid>adm` user owns the license file; the
`uid` and `gid` of `user.info` are read before the dry-run branch appends its
message or `file.chown` is called. -/
def fileOwnInstall (name fname : String) (env : Env) (files : List Dict) (a : StAcc) : PhaseRes :=
  let sidadm := pyLower name ++ "adm"
  if env.fileOwner fname = sidadm then fileInstall2 name fname env files a
  else
    let ui := env.userInfo sidadm
    match dictGet ui "uid", dictGet ui "gid" with
    | some uid, some gid =>
      if env.test then
        fileInstall2 name fname env files
          { a with new := a.new ++
              ["Would change to owner of " ++ fname ++ " to uid " ++ uid ++ " / gid " ++ gid] }
      else
        fileInstall2 name fname env files { a with tr := a.tr ++ [Call.chown uid gid fname] }
    | _, _ => .crash a

/-- Lines 137-158: not all licenses of the file are installed — delete all
licenses of the SID with one wildcard-scoped call, then go on to the
ownership fix and the install.  `sysOpt` is the (possibly stripped) observed
list; `none` models `show` having returned `False`, over which the message
loops raise. -/
def fileInstall (name fname : String) (env : Env) (files : List Dict)
    (sysOpt : Option (List Dict)) (a : StAcc) : PhaseRes :=
  if env.test then
    match sysOpt with
    | none => .crash a
    | some sys =>
      match licMsgs " would be removed" sys with
      | none => .crash a
      | some ms => fileOwnInstall name fname env files { a with old := a.old ++ ms }
  else
    let c : DeleteCall := ⟨name, name, "*", "*"⟩
    let a1 := { a with tr := a.tr ++ [Call.delete c] }
    if env.deleteOk c then
      match sysOpt with
      | none => .crash a1
      | some sys =>
        match licMsgs "" sys with
        | none => .crash a1
        | some ms => fileOwnInstall name fname env files { a1 with old := a1.old ++ ms }
    else .abort a1 ("Could not remove license for system " ++ name)

/-- `license_present` lines 116-197, the branch with a filename: parse the
file, check every file record against the observed records (stripping the
system-only fields in place), and when not all match, remove and reinstall.
An empty file yields `all_valid = False` without touching the observed list.
-/
def filePhase (name fname : String) (env : Env) (a : StAcc) : PhaseRes :=
  let files := read_lic_file (env.fileLines fname)
  match files with
  | [] => fileInstall name fname env files env.showRes a
  | _ :: _ =>
    match env.showRes with
    | none => .crash a
    | some sys =>
      let q := allMatch files sys
      if q.1 then .cont a
      else fileInstall name fname env files (some q.2) a

/-- Lines 201-207: scan for a valid license, skipping `Maintenance_`
products; `none` models the `KeyError` of a record missing
`software_product` or `validity`. -/
def validScan : List Dict → Option Bool
  | [] => some false
  | lic :: rest =>
    match dictGet lic "software_product" with
    | none => none
    | some p =>
      if strStarts p "Maintenance_" then validScan rest
      else match dictGet lic "validity" with
        | none => none
        | some v => if v = "valid" then some true else validScan rest

/-- Lines 222-240: install a temporary license for the product list of
`info`; `info["software_products"]` is evaluated first (line 222), so an
`info` of `False` or a missing key raises before the dry-run branch. -/
def tempInstall (name : String) (env : Env) (a : StAcc) : PhaseRes :=
  match env.infoRes with
  | none => .crash a
  | some ifo =>
    match dictGet ifo "software_products" with
    | none => .crash a
    | some prods =>
      if env.test then
        .cont { a with new := a.new ++
          ["SAP system " ++ name ++ " temporary license for " ++ prods ++ " would be added"] }
      else
        let a1 := { a with tr := a.tr ++ [Call.temp name prods] }
        if env.tempOk name prods then
          .cont { a1 with new := a1.new ++
            ["SAP system " ++ name ++ " temporary license for " ++ prods] }
        else .abort a1 ("Could not add temporay license for system " ++ name ++ " for " ++ prods)

/-- `license_present` lines 198-242, the branch without a filename: look for
a valid non-maintenance license; when none is found, delete all licenses of
the SID (when any exist) and install a temporary license; when one is found,
set the valid-license comment. -/
def noFilePhase (name : String) (env : Env) (a : StAcc) : PhaseRes :=
  match env.showRes with
  | none => .crash a
  | some sys =>
    match validScan sys with
    | none => .crash a
    | some true =>
      .cont { a with comment := "System " ++ name ++ " already has a valid license" }
    | some false =>
      if sys.isEmpty then tempInstall name env a
      else if env.test then
        tempInstall name env
          { a with old := a.old ++ ["SAP system " ++ name ++ " license would be deleted"] }
      else
        let c : DeleteCall := ⟨name, name, "*", "*"⟩
        let a1 := { a with tr := a.tr ++ [Call.delete c] }
        if env.deleteOk c then
          tempInstall name env { a1 with old := a1.old ++ ["SAP system " ++ name ++ " license"] }
        else .abort a1 ("Could not remove license for system " ++ name)

/-- Lines 244-248: when both change lists are empty, clear `changes` and
overwrite the comment with `"No changes required"`; the final result is
`True` unless dry-run mode still has pending changes (`None`). -/
def finalize (name : String) (test : Bool) (a : StAcc) : Ret :=
  if a.new.isEmpty && a.old.isEmpty then ⟨name, none, "No changes required", some true⟩
  else ⟨name, some (a.old, a.new), a.comment, if test then none else some true⟩

/-- Wraps a phase continuation into the function's outcome: a fall-through
goes through `finalize`, an early failure return carries `result = False`. -/
def finish (name : String) (test : Bool) : PhaseRes → Out
  | .cont a => .ret (finalize name test a) a.tr
  | .abort a c => .ret ⟨name, some (a.old, a.new), c, some false⟩ a.tr
  | .crash a => .crash a.tr

/-- The state function `license_present` (`_states/sap_likey.py`, lines
30-250). -/
def licensePresent (name : String) (filename : Option String)
    (remove_other_sid remove_other_hwkey : Bool) (env : Env) : Out :=
  let a0 : StAcc := ⟨[], [], [], ""⟩
  let r1 := if remove_other_sid then sidPhase name env a0 else .cont a0
  let r2 := pthen r1 (fun a => if remove_other_hwkey then hwPhase name env a else .cont a)
  let r3 := pthen r2 (fun a =>
    match filename with
    | some f => if f = "" then noFilePhase name env a else filePhase name f env a
    | none => noFilePhase name env a)
  finish name env.test r3

/-- Loop of `license_absent` lines 276-304: delete every observed record
matching `remove_all or lic_sys["system"] == name` (the `or` short-circuits),
passing `name=name` (the target SID), `sid=name`, the record's
`hardware_key` and `software_product`. -/
def absLoop (name : String) (removeAll : Bool) (env : Env) : List Dict → StAcc → PhaseRes
  | [], a => .cont a
  | lic :: rest, a =>
    let cond : Option Bool :=
      if removeAll then some true
      else match dictGet lic "system" with
        | none => none
        | some s => some (s == name)
    match cond with
    | none => .crash a
    | some b =>
      if b then
        if env.test then
          match dictGet lic "system", dictGet lic "hardware_key",
              dictGet lic "software_product" with
          | some s, some h, some p =>
            absLoop name removeAll env rest { a with old := a.old ++ [wouldRemove s h p] }
          | _, _, _ => .crash a
        else
          match dictGet lic "hardware_key", dictGet lic "software_product" with
          | some h, some p =>
            let c : DeleteCall := ⟨name, name, h, p⟩
            let a1 := { a with tr := a.tr ++ [Call.delete c] }
            if env.deleteOk c then
              match dictGet lic "system" with
              | some s => absLoop name removeAll env rest { a1 with old := a1.old ++ [licDesc3 s h p] }
              | none => .crash a1
            else
              match dictGet lic "system" with
              | some s => .abort a1 (cantRemoveAbs s h p)
              | none => .crash a1
          | _, _ => .crash a
      else absLoop name removeAll env rest a

/-- The state function `license_absent` (`_states/sap_likey.py`, lines
254-311). -/
def licenseAbsent (name : String) (removeAll : Bool) (env : Env) : Out :=
  let a0 : StAcc := ⟨[], [], [], ""⟩
  let r :=
    match env.showRes with
    | none => PhaseRes.crash a0
    | some sys => absLoop name removeAll env sys a0
  finish name env.test r

/-- Well-formed observed record: the three fields every loop reads are
present. -/
def wfLic (lic : Dict) : Prop :=
  (dictGet lic "system").isSome ∧ (dictGet lic "hardware_key").isSome ∧
    (dictGet lic "software_product").isSome

instance (lic : Dict) : Decidable (wfLic lic) := by
  unfold wfLic
  infer_instance

/-- The `system` field of a record (default empty). -/
def licSys (lic : Dict) : String := (dictGet lic "system").getD ""

/-- The `hardware_key` field of a record (default empty). -/
def licHw (lic : Dict) : String := (dictGet lic "hardware_key").getD ""

/-- The `software_product` field of a record (default empty). -/
def licProd (lic : Dict) : String := (dictGet lic "software_product").getD ""

/-- Delete call issued by the foreign-SID loop for a record. -/
def mkSidCall (name : String) (lic : Dict) : DeleteCall := ⟨licSys lic, name, "*", "*"⟩

/-- Delete call issued by the foreign-hardware-key loop for a record. -/
def mkHwCall (name : String) (lic : Dict) : DeleteCall := ⟨licSys lic, name, licHw lic, "*"⟩

/-- Delete call issued by `license_absent` for a record. -/
def mkAbsCall (name : String) (lic : Dict) : DeleteCall := ⟨name, name, licHw lic, licProd lic⟩

/-- Selection condition of the `license_absent` loop:
`remove_all or lic_sys["system"] == name` (on well-formed records). -/
def absPred (name : String) (removeAll : Bool) (lic : Dict) : Bool :=
  removeAll || (licSys lic == name)

/-- Whether the delete collaborator succeeds on the `license_absent` call for
a record. -/
def absDel (name : String) (env : Env) (lic : Dict) : Bool :=
  env.deleteOk (mkAbsCall name lic)

/-- A foreign-SID license observed on the example system. -/
def licA : Dict := [("system","M70"),("hardware_key","H1"),("software_product","P")]

/-- The same foreign license as seen by `-show` with a validity field. -/
def licAv : Dict :=
  [("system","M70"),("hardware_key","H1"),("software_product","P"),("validity","invalid")]

/-- A valid own license of the example system `S4H`. -/
def licB : Dict :=
  [("system","S4H"),("hardware_key","H1"),("software_product","NetWeaver_HDB"),("validity","valid")]

/-- A license file holding exactly the foreign license `licA`. -/
def fileLinesA : List String :=
  ["Begin SAP License\n","SAPSYSTEM=M70\n","HARDWARE-KEY=H1\n","SWPRODUCTNAME=P\n"]

/-- A license file holding exactly the own license `licB` (without the
system-only validity field). -/
def fileLinesB : List String :=
  ["Begin SAP License\n","SAPSYSTEM=S4H\n","HARDWARE-KEY=H1\n","SWPRODUCTNAME=NetWeaver_HDB\n"]

/-- Example environment: live run, one foreign license observed, every
collaborator succeeding, the license file readable and owned by `s4hadm`. -/
def envA : Env := {
  test := false
  infoRes := some [("hardware_key","H1"),("software_products","NetWeaver_HDB")]
  showRes := some [licA]
  deleteOk := fun _ => true
  installOk := fun _ _ => true
  tempOk := fun _ _ => true
  fileLines := fun _ => fileLinesA
  fileOwner := fun _ => "s4hadm"
  userInfo := fun _ => [("uid","1001"),("gid","1001")] }

theorem finish_empty_inv (name : String) (test : Bool) (pr : PhaseRes) (r : Ret)
    (tr : List Call) (hret : finish name test pr = Out.ret r tr)
    (hres : r.result ≠ some false)
    (hemp : r.changes = none ∨ r.changes = some ([], [])) :
    r.comment = "No changes required" ∧ r.result = some true := by
  cases pr with
  | crash a => simp [finish] at hret
  | abort a c =>
    simp only [finish, Out.ret.injEq] at hret
    obtain ⟨hr, -⟩ := hret
    subst hr
    simp at hres
  | cont a =>
    simp only [finish, Out.ret.injEq] at hret
    obtain ⟨hr, -⟩ := hret
    subst hr
    by_cases hne : (a.new.isEmpty && a.old.isEmpty) = true
    · simp [finalize, hne]
    · exfalso
      rw [finalize, if_neg hne] at hemp
      dsimp only at hemp
      rcases hemp with h | h
      · simp at h
      · simp only [Option.some.injEq, Prod.mk.injEq] at h
        simp [h.1, h.2] at hne

/-- C2 counterexample: with one foreign license observed and the delete
collaborator failing, `license_present` returns with both change lists empty
(`changes = {"old": [], "new": []}`), yet the comment is the delete-failure
message and the result is failure, not success with "No changes required". -/
theorem c2_counterexample :
    licensePresent "S4H" none true true { envA with deleteOk := fun _ => false } =
      Out.ret ⟨"S4H", some ([], []), cantRemoveSid "M70" "H1" "P", some false⟩
        [Call.delete ⟨"M70", "S4H", "*", "*"⟩] ∧
    cantRemoveSid "M70" "H1" "P" ≠ "No changes required" := by
  exact ⟨rfl, by decide⟩

/-- C2 (amended): for every run of `license_present` and `license_absent`
that returns without aborting on a failed collaborator call (result is not
failure), if both change lists are empty then the comment is exactly
"No changes required" and the result is success. -/
theorem c2_theorem :
    (∀ (name : String) (filename : Option String) (ros roh : Bool) (env : Env)
        (r : Ret) (tr : List Call),
        licensePresent name filename ros roh env = Out.ret r tr →
        r.result ≠ some false →
        (r.changes = none ∨ r.changes = some ([], [])) →
        r.comment = "No changes required" ∧ r.result = some true) ∧
    (∀ (name : String) (removeAll : Bool) (env : Env) (r : Ret) (tr : List Call),
        licenseAbsent name removeAll env = Out.ret r tr →
        r.result ≠ some false →
        (r.changes = none ∨ r.changes = some ([], [])) →
        r.comment = "No changes required" ∧ r.result = some true) := by
  constructor
  · intro name filename ros roh env r tr hret hres hemp
    unfold licensePresent at hret
    exact finish_empty_inv _ _ _ _ _ hret hres hemp
  · intro name removeAll env r tr hret hres hemp
    unfold licenseAbsent at hret
    exact finish_empty_inv _ _ _ _ _ hret hres hemp

/-- C2 witness: a concrete converged run (a valid own license observed, no
filename) returns the comment "No changes required" with a success result. -/
theorem c2_witness :
    (Ret.mk "S4H" none "No changes required" (some true)).comment = "No changes required" ∧
    (Ret.mk "S4H" none "No changes required" (some true)).result = some true :=
  c2_theorem.1 "S4H" none true true { envA with showRes := some [licB] }
    (Ret.mk "S4H" none "No changes required" (some true)) [] rfl (by decide) (Or.inl rfl)

/-- C4: the `-show` output parser raises on a block whose blank-line
terminator is missing — a final line ending in "License Key:" makes the block
loop index past the end of the line list, the `IndexError` of `lines[i]`,
instead of stopping at end of input. -/
theorem c4_parse_show_raises :
    parse_show ["Some License Key:"] = PyResult.raised ∧
    show_mod 0 "Some License Key:" = PyResult.raised :=
  ⟨rfl, rfl⟩

/-- C8: the facade `show` does return `False` on non-zero exit, but the state
functions iterate over that boolean without checking it, so the failure
propagates as a raised fault (`TypeError`), not as a comment with a failure
result. -/
theorem c8_show_failure_raises :
    show_mod 1 "some output" = PyResult.ok none ∧
    licensePresent "S4H" none true true { envA with showRes := none } = Out.crash [] ∧
    licenseAbsent "S4H" true { envA with showRes := none } = Out.crash [] :=
  ⟨rfl, rfl, rfl⟩

theorem finish_tr (name : String) (test : Bool) (pr : PhaseRes) :
    outTrace (finish name test pr) = phaseTr pr := by
  cases pr <;> rfl

theorem pthen_tr (r : PhaseRes) (f : StAcc → PhaseRes) (hf : ∀ a, phaseTr (f a) = a.tr) :
    phaseTr (pthen r f) = phaseTr r := by
  cases r with
  | cont a => exact hf a
  | abort a c => rfl
  | crash a => rfl

theorem sidLoop_tr_test (name : String) (env : Env) (htest : env.test = true) :
    ∀ (sys : List Dict) (a : StAcc), phaseTr (sidLoop name env sys a) = a.tr := by
  intro sys
  induction sys with
  | nil => intro a; rfl
  | cons lic rest ih =>
    intro a
    rw [sidLoop]
    cases dictGet lic "system" with
    | none => rfl
    | some s =>
      dsimp only
      by_cases hs : s = name
      · rw [if_pos hs]
        exact ih a
      · rw [if_neg hs, htest, if_pos rfl]
        cases dictGet lic "hardware_key" with
        | none => cases dictGet lic "software_product" <;> rfl
        | some h =>
          cases dictGet lic "software_product" with
          | none => rfl
          | some p => exact ih _

theorem hwLoop_tr_test (name hw : String) (env : Env) (htest : env.test = true) :
    ∀ (sys : List Dict) (a : StAcc), phaseTr (hwLoop name hw env sys a) = a.tr := by
  intro sys
  induction sys with
  | nil => intro a; rfl
  | cons lic rest ih =>
    intro a
    rw [hwLoop]
    cases dictGet lic "hardware_key" with
    | none => rfl
    | some h =>
      dsimp only
      by_cases hh : h = hw
      · rw [if_pos hh]
        exact ih a
      · rw [if_neg hh, htest, if_pos rfl]
        cases dictGet lic "system" with
        | none => cases dictGet lic "software_product" <;> rfl
        | some s =>
          cases dictGet lic "software_product" with
          | none => rfl
          | some p => exact ih _

theorem sidPhase_tr_test (name : String) (env : Env) (htest : env.test = true)
    (a : StAcc) : phaseTr (sidPhase name env a) = a.tr := by
  rw [sidPhase]
  cases env.showRes with
  | none => rfl
  | some sys => exact sidLoop_tr_test name env htest sys a

theorem hwPhase_tr_test (name : String) (env : Env) (htest : env.test = true)
    (a : StAcc) : phaseTr (hwPhase name env a) = a.tr := by
  rw [hwPhase]
  cases env.infoRes with
  | none => rfl
  | some ifo =>
    dsimp only
    cases dictGet ifo "hardware_key" with
    | none => rfl
    | some hw =>
      dsimp only
      cases env.showRes with
      | none => rfl
      | some sys => exact hwLoop_tr_test name hw env htest sys a

theorem fileInstall2_tr_test (name fname : String) (env : Env) (htest : env.test = true)
    (files : List Dict) (a : StAcc) : phaseTr (fileInstall2 name fname env files a) = a.tr := by
  rw [fileInstall2, htest, if_pos rfl]
  cases licMsgs " would be installed" files <;> rfl

theorem fileOwnInstall_tr_test (name fname : String) (env : Env) (htest : env.test = true)
    (files : List Dict) (a : StAcc) :
    phaseTr (fileOwnInstall name fname env files a) = a.tr := by
  rw [fileOwnInstall]
  by_cases hown : env.fileOwner fname = pyLower name ++ "adm"
  · rw [if_pos hown]
    exact fileInstall2_tr_test name fname env htest files a
  · rw [if_neg hown]
    dsimp only
    cases dictGet (env.userInfo (pyLower name ++ "adm")) "uid" with
    | none => cases dictGet (env.userInfo (pyLower name ++ "adm")) "gid" <;> rfl
    | some uid =>
      cases dictGet (env.userInfo (pyLower name ++ "adm")) "gid" with
      | none => rfl
      | some gid =>
        dsimp only
        rw [htest, if_pos rfl]
        exact fileInstall2_tr_test name fname env htest files _

theorem fileInstall_tr_test (name fname : String) (env : Env) (htest : env.test = true)
    (files : List Dict) (sysOpt : Option (List Dict)) (a : StAcc) :
    phaseTr (fileInstall name fname env files sysOpt a) = a.tr := by
  unfold fileInstall
  rw [htest, if_pos rfl]
  cases sysOpt with
  | none => rfl
  | some sys =>
    dsimp only
    cases licMsgs " would be removed" sys with
    | none => rfl
    | some ms => exact fileOwnInstall_tr_test name fname env htest files _

theorem filePhase_tr_test (name fname : String) (env : Env) (htest : env.test = true)
    (a : StAcc) : phaseTr (filePhase name fname env a) = a.tr := by
  unfold filePhase
  cases read_lic_file (env.fileLines fname) with
  | nil => exact fileInstall_tr_test name fname env htest [] env.showRes a
  | cons f fs =>
    dsimp only
    cases env.showRes with
    | none => rfl
    | some sys =>
      dsimp only
      split
      · rfl
      · exact fileInstall_tr_test name fname env htest _ _ a

theorem tempInstall_tr_test (name : String) (env : Env) (htest : env.test = true)
    (a : StAcc) : phaseTr (tempInstall name env a) = a.tr := by
  rw [tempInstall]
  cases env.infoRes with
  | none => rfl
  | some ifo =>
    dsimp only
    cases dictGet ifo "software_products" with
    | none => rfl
    | some prods =>
      dsimp only
      rw [htest, if_pos rfl]
      rfl

theorem noFilePhase_tr_test (name : String) (env : Env) (htest : env.test = true)
    (a : StAcc) : phaseTr (noFilePhase name env a) = a.tr := by
  rw [noFilePhase]
  cases env.showRes with
  | none => rfl
  | some sys =>
    dsimp only
    cases validScan sys with
    | none => rfl
    | some b =>
      cases b with
      | true => rfl
      | false =>
        dsimp only
        by_cases hs : sys.isEmpty = true
        · rw [if_pos hs]
          exact tempInstall_tr_test name env htest a
        · rw [if_neg hs, htest, if_pos rfl]
          exact tempInstall_tr_test name env htest _

theorem absLoop_tr_test (name : String) (removeAll : Bool) (env : Env)
    (htest : env.test = true) :
    ∀ (sys : List Dict) (a : StAcc), phaseTr (absLoop name removeAll env sys a) = a.tr := by
  intro sys
  induction sys with
  | nil => intro a; rfl
  | cons lic rest ih =>
    intro a
    rw [absLoop]
    by_cases hra : removeAll = true
    · rw [if_pos hra]
      dsimp only
      rw [if_pos rfl, htest, if_pos rfl]
      cases dictGet lic "system" with
      | none =>
        cases dictGet lic "hardware_key" <;> cases dictGet lic "software_product" <;> rfl
      | some s =>
        cases dictGet lic "hardware_key" with
        | none => cases dictGet lic "software_product" <;> rfl
        | some h =>
          cases dictGet lic "software_product" with
          | none => rfl
          | some p => exact ih _
    · rw [if_neg hra]
      cases dictGet lic "system" with
      | none => rfl
      | some s =>
        dsimp only
        by_cases hs : (s == name) = true
        · rw [hs, if_pos rfl, htest, if_pos rfl]
          cases dictGet lic "hardware_key" with
          | none => cases dictGet lic "software_product" <;> rfl
          | some h =>
            cases dictGet lic "software_product" with
            | none => rfl
            | some p => exact ih _
        · rw [Bool.of_not_eq_true hs, if_neg (by simp)]
          exact ih a

/-- C7: in dry-run mode neither `license_present` nor `license_absent` ever
invokes the mutating collaborators `delete`, `install`, `temp` or `chown`:
the trace of mutating calls of every run is empty. -/
theorem c7_theorem :
    (∀ (name : String) (filename : Option String) (ros roh : Bool) (env : Env),
        env.test = true →
        outTrace (licensePresent name filename ros roh env) = []) ∧
    (∀ (name : String) (removeAll : Bool) (env : Env),
        env.test = true → outTrace (licenseAbsent name removeAll env) = []) := by
  constructor
  · intro name filename ros roh env htest
    unfold licensePresent
    rw [finish_tr]
    rw [pthen_tr]
    · rw [pthen_tr]
      · cases ros with
        | true => exact sidPhase_tr_test name env htest _
        | false => rfl
      · intro a
        cases roh with
        | true => exact hwPhase_tr_test name env htest a
        | false => rfl
    · intro a
      cases filename with
      | none => exact noFilePhase_tr_test name env htest a
      | some f =>
        dsimp only
        by_cases hf : f = ""
        · rw [if_pos hf]
          exact noFilePhase_tr_test name env htest a
        · rw [if_neg hf]
          exact filePhase_tr_test name f env htest a
  · intro name removeAll env htest
    unfold licenseAbsent
    rw [finish_tr]
    cases env.showRes with
    | none => rfl
    | some sys => exact absLoop_tr_test name removeAll env htest sys _

/-- C7 witness: a concrete dry-run with a foreign license observed makes no
mutating call. -/
theorem c7_witness :
    outTrace (licensePresent "S4H" (some "/tmp/lic.txt") true true
      { envA with test := true }) = [] :=
  c7_theorem.1 "S4H" (some "/tmp/lic.txt") true true { envA with test := true } rfl

theorem stripSys_idem (d : Dict) : stripSys (stripSys d) = stripSys d := by
  induction d with
  | nil => rfl
  | cons q rest ih =>
    by_cases h1 : q.1 = "last_successful_check" <;>
      by_cases h2 : q.1 = "validity" <;>
        by_cases h3 : q.1 = "type_of_license_key" <;>
          simp_all [stripSys, dictErase, List.filter_cons]

theorem findMatch_strip (f : Dict) (sys : List Dict) :
    (findMatch f sys).2.map stripSys = sys.map stripSys := by
  induction sys with
  | nil => rfl
  | cons d rest ih =>
    rw [findMatch]
    dsimp only
    by_cases h : dictEqb f (stripSys d) = true
    · rw [if_pos h]
      simp [stripSys_idem]
    · rw [if_neg h]
      simp [stripSys_idem, ih]

theorem findMatch_found (f : Dict) (sys : List Dict)
    (hex : ∃ l ∈ sys, dictEqb f (stripSys l) = true) : (findMatch f sys).1 = true := by
  induction sys with
  | nil => simp at hex
  | cons d rest ih =>
    rw [findMatch]
    dsimp only
    by_cases h : dictEqb f (stripSys d) = true
    · rw [if_pos h]
    · rw [if_neg h]
      dsimp only
      obtain ⟨l, hl, he⟩ := hex
      rcases List.mem_cons.mp hl with rfl | hl2
      · exact absurd he h
      · exact ih ⟨l, hl2, he⟩

theorem allMatch_true : ∀ (fs sys : List Dict),
    (∀ fr ∈ fs, ∃ l ∈ sys, dictEqb fr (stripSys l) = true) → (allMatch fs sys).1 = true := by
  intro fs
  induction fs with
  | nil => intro sys _; rfl
  | cons f fs ih =>
    intro sys h
    rw [allMatch]
    have hf : (findMatch f sys).1 = true := findMatch_found f sys (h f (by simp))
    rw [if_pos hf]
    apply ih
    intro fr hfr
    obtain ⟨l, hl, he⟩ := h fr (List.mem_cons_of_mem _ hfr)
    have hmem : stripSys l ∈ (findMatch f sys).2.map stripSys := by
      rw [findMatch_strip f sys]
      exact List.mem_map_of_mem _ hl
    obtain ⟨l2, hl2, hsl⟩ := List.mem_map.mp hmem
    refine ⟨l2, hl2, ?_⟩
    rw [hsl]
    exact he

theorem sidLoop_noop (name : String) (env : Env) :
    ∀ (sys : List Dict) (a : StAcc),
      (∀ lic ∈ sys, dictGet lic "system" = some name) →
      sidLoop name env sys a = .cont a := by
  intro sys
  induction sys with
  | nil => intro a _; rfl
  | cons lic rest ih =>
    intro a h
    rw [sidLoop, h lic (by simp)]
    dsimp only
    rw [if_pos rfl]
    exact ih a (fun l hl => h l (List.mem_cons_of_mem _ hl))

theorem hwLoop_noop (name hw : String) (env : Env) :
    ∀ (sys : List Dict) (a : StAcc),
      (∀ lic ∈ sys, dictGet lic "hardware_key" = some hw) →
      hwLoop name hw env sys a = .cont a := by
  intro sys
  induction sys with
  | nil => intro a _; rfl
  | cons lic rest ih =>
    intro a h
    rw [hwLoop, h lic (by simp)]
    dsimp only
    rw [if_pos rfl]
    exact ih a (fun l hl => h l (List.mem_cons_of_mem _ hl))

theorem validScan_true :
    ∀ (sys : List Dict),
      (∀ lic ∈ sys, (dictGet lic "software_product").isSome ∧
        (dictGet lic "validity").isSome) →
      (∃ lic ∈ sys, ∃ p, dictGet lic "software_product" = some p ∧
        strStarts p "Maintenance_" = false ∧ dictGet lic "validity" = some "valid") →
      validScan sys = some true := by
  intro sys
  induction sys with
  | nil => intro _ hex; simp at hex
  | cons lic rest ih =>
    intro hwf hex
    obtain ⟨p, hp⟩ := Option.isSome_iff_exists.mp (hwf lic (by simp)).1
    obtain ⟨v, hv⟩ := Option.isSome_iff_exists.mp (hwf lic (by simp)).2
    rw [validScan, hp]
    dsimp only
    by_cases hm : strStarts p "Maintenance_" = true
    · rw [if_pos hm]
      apply ih (fun l hl => hwf l (List.mem_cons_of_mem _ hl))
      obtain ⟨l, hl, p2, hp2, hnm, hval⟩ := hex
      rcases List.mem_cons.mp hl with rfl | hl2
      · rw [hp] at hp2
        injection hp2 with e
        subst e
        rw [hm] at hnm
        exact absurd hnm (by simp)
      · exact ⟨l, hl2, p2, hp2, hnm, hval⟩
    · rw [if_neg hm, hv]
      dsimp only
      by_cases hval : v = "valid"
      · rw [if_pos hval]
      · rw [if_neg hval]
        apply ih (fun l hl => hwf l (List.mem_cons_of_mem _ hl))
        obtain ⟨l, hl, p2, hp2, hnm, hval2⟩ := hex
        rcases List.mem_cons.mp hl with rfl | hl2
        · rw [hv] at hval2
          injection hval2 with e
          exact absurd e hval
        · exact ⟨l, hl2, p2, hp2, hnm, hval2⟩

/-- C5 counterexample: with a valid own license observed and no filename, the
run makes no mutating call, but the returned comment is "No changes required"
— the "System S4H already has a valid license" comment set inside the branch
is overwritten by the final empty-changes normalization, so the comment the
claim states is never returned. -/
theorem c5_counterexample :
    licensePresent "S4H" none true true { envA with showRes := some [licB] } =
      Out.ret ⟨"S4H", none, "No changes required", some true⟩ [] ∧
    "No changes required" ≠ "System already has a valid license" ∧
    "No changes required" ≠ "System S4H already has a valid license" :=
  ⟨rfl, by decide, by decide⟩

/-- C5 (amended): when `license_present` is called without a filename, some
observed record has a non-`Maintenance_` product with validity "valid", and
no foreign-SID or foreign-hardware-key record triggers a removal, the run
performs zero delete, install and temp calls and returns a success result
whose comment is "No changes required" (the branch's valid-license comment is
overwritten by the final empty-changes normalization). -/
theorem c5_theorem :
    ∀ (name hw : String) (env : Env) (sys : List Dict) (ifo : Dict),
      env.showRes = some sys →
      env.infoRes = some ifo →
      dictGet ifo "hardware_key" = some hw →
      (∀ lic ∈ sys, dictGet lic "system" = some name) →
      (∀ lic ∈ sys, dictGet lic "hardware_key" = some hw) →
      (∀ lic ∈ sys, (dictGet lic "software_product").isSome ∧
        (dictGet lic "validity").isSome) →
      (∃ lic ∈ sys, ∃ p, dictGet lic "software_product" = some p ∧
        strStarts p "Maintenance_" = false ∧ dictGet lic "validity" = some "valid") →
      licensePresent name none true true env =
        Out.ret ⟨name, none, "No changes required", some true⟩ [] := by
  intro name hw env sys ifo hshow hinfo hhw hsys hsyshw hwf hex
  have h1 : sidPhase name env ⟨[], [], [], ""⟩ = .cont ⟨[], [], [], ""⟩ := by
    rw [sidPhase, hshow]
    exact sidLoop_noop name env sys _ hsys
  have h2 : hwPhase name env ⟨[], [], [], ""⟩ = .cont ⟨[], [], [], ""⟩ := by
    rw [hwPhase, hinfo]
    dsimp only
    rw [hhw]
    dsimp only
    rw [hshow]
    exact hwLoop_noop name hw env sys _ hsyshw
  have h3 : noFilePhase name env ⟨[], [], [], ""⟩ =
      .cont ⟨[], [], [], "System " ++ name ++ " already has a valid license"⟩ := by
    rw [noFilePhase, hshow]
    dsimp only
    rw [validScan_true sys hwf hex]
  unfold licensePresent
  dsimp only
  simp only [eq_self_iff_true, if_true]
  rw [h1]
  dsimp only [pthen]
  rw [h2]
  dsimp only [pthen]
  rw [h3]
  rfl

/-- C5 witness: the amended statement applied to a concrete converged system.
-/
theorem c5_witness :
    licensePresent "S4H" none true true { envA with showRes := some [licB] } =
      Out.ret ⟨"S4H", none, "No changes required", some true⟩ [] :=
  c5_theorem "S4H" "H1" { envA with showRes := some [licB] } [licB]
    [("hardware_key","H1"),("software_products","NetWeaver_HDB")]
    rfl rfl rfl (by decide) (by decide) (by decide)
    ⟨licB, by decide, "NetWeaver_HDB", rfl, rfl, rfl⟩

/-- C1 counterexample: the desired file holds exactly the one observed
license, so every file record has an exact match among the observed records
once the system-only fields are stripped, yet the second invocation is not a
no-op: the license belongs to SID M70, the foreign-SID pass deletes it, a
change is recorded, and the comment is empty rather than
"No changes required". -/
theorem c1_counterexample :
    (read_lic_file (envA.fileLines "/tmp/lic.txt")).all
        (fun fr => [licA].any (fun l => dictEqb fr (stripSys l))) = true ∧
    licensePresent "S4H" (some "/tmp/lic.txt") true true envA =
      Out.ret ⟨"S4H", some (["SAP system license M70 / H1 / P"], []), "", some true⟩
        [Call.delete ⟨"M70", "S4H", "*", "*"⟩] :=
  ⟨by decide, rfl⟩

/-- C1 (amended): `license_present` with a filename is a no-op — no delete or
install call, comment "No changes required", success — provided every record
parsed from the file has an exact match among the observed records once the
system-only fields are stripped, the file parses to at least one record, and
additionally every observed record already belongs to the instance (its
`system` equals the SID and its `hardware_key` equals the system's own
hardware key), so that the foreign-license passes delete nothing. -/
theorem c1_theorem :
    ∀ (name f hw : String) (env : Env) (sys : List Dict) (ifo : Dict),
      f ≠ "" →
      env.showRes = some sys →
      env.infoRes = some ifo →
      dictGet ifo "hardware_key" = some hw →
      (∀ lic ∈ sys, dictGet lic "system" = some name) →
      (∀ lic ∈ sys, dictGet lic "hardware_key" = some hw) →
      read_lic_file (env.fileLines f) ≠ [] →
      (∀ fr ∈ read_lic_file (env.fileLines f),
        ∃ l ∈ sys, dictEqb fr (stripSys l) = true) →
      licensePresent name (some f) true true env =
        Out.ret ⟨name, none, "No changes required", some true⟩ [] := by
  intro name f hw env sys ifo hf hshow hinfo hhw hsys hsyshw hne hmatch
  have h1 : sidPhase name env ⟨[], [], [], ""⟩ = .cont ⟨[], [], [], ""⟩ := by
    rw [sidPhase, hshow]
    exact sidLoop_noop name env sys _ hsys
  have h2 : hwPhase name env ⟨[], [], [], ""⟩ = .cont ⟨[], [], [], ""⟩ := by
    rw [hwPhase, hinfo]
    dsimp only
    rw [hhw]
    dsimp only
    rw [hshow]
    exact hwLoop_noop name hw env sys _ hsyshw
  have h3 : filePhase name f env ⟨[], [], [], ""⟩ = .cont ⟨[], [], [], ""⟩ := by
    unfold filePhase
    dsimp only
    cases hfiles : read_lic_file (env.fileLines f) with
    | nil => exact absurd hfiles hne
    | cons fr frs =>
      dsimp only
      rw [hshow]
      dsimp only
      rw [hfiles] at hmatch
      rw [if_pos (allMatch_true (fr :: frs) sys hmatch)]
  unfold licensePresent
  dsimp only
  simp only [eq_self_iff_true, if_true]
  rw [h1]
  dsimp only [pthen]
  rw [h2]
  dsimp only [pthen]
  rw [if_neg hf, h3]
  rfl

/-- C1 witness: the amended statement applied to a concrete converged system
whose observed license belongs to the instance and matches the file. -/
theorem c1_witness :
    licensePresent "S4H" (some "/tmp/S4H.txt") true true
      { envA with showRes := some [licB], fileLines := fun _ => fileLinesB } =
      Out.ret ⟨"S4H", none, "No changes required", some true⟩ [] :=
  c1_theorem "S4H" "/tmp/S4H.txt" "H1"
    { envA with showRes := some [licB], fileLines := fun _ => fileLinesB } [licB]
    [("hardware_key","H1"),("software_products","NetWeaver_HDB")]
    (by decide) rfl rfl rfl (by decide) (by decide) (by decide) (by decide)

theorem licMsgs_wf (suffix : String) :
    ∀ (sys : List Dict), (∀ lic ∈ sys, wfLic lic) →
      ∃ ms, licMsgs suffix sys = some ms := by
  intro sys
  induction sys with
  | nil => intro _; exact ⟨[], rfl⟩
  | cons lic rest ih =>
    intro h
    obtain ⟨hs, hh, hp⟩ := h lic (by simp)
    obtain ⟨s, hs⟩ := Option.isSome_iff_exists.mp hs
    obtain ⟨hw, hh⟩ := Option.isSome_iff_exists.mp hh
    obtain ⟨p, hp⟩ := Option.isSome_iff_exists.mp hp
    obtain ⟨ms, hms⟩ := ih (fun l hl => h l (List.mem_cons_of_mem _ hl))
    refine ⟨(licDesc3 s hw p ++ suffix) :: ms, ?_⟩
    rw [licMsgs, hs, hh, hp]
    dsimp only
    rw [hms]

/-- C10: when the desired license file parses to no record at all (no
"Begin SAP License" block), `license_present` outside dry-run treats the
state as not converged and issues exactly one wildcard-scoped delete of all
the instance's licenses followed by one install of the file, instead of a
no-op. -/
theorem c10_theorem :
    ∀ (name f hw : String) (env : Env) (sys : List Dict) (ifo : Dict),
      env.test = false →
      f ≠ "" →
      env.showRes = some sys →
      env.infoRes = some ifo →
      dictGet ifo "hardware_key" = some hw →
      (∀ lic ∈ sys, dictGet lic "system" = some name) →
      (∀ lic ∈ sys, dictGet lic "hardware_key" = some hw) →
      (∀ lic ∈ sys, wfLic lic) →
      read_lic_file (env.fileLines f) = [] →
      env.fileOwner f = pyLower name ++ "adm" →
      env.deleteOk ⟨name, name, "*", "*"⟩ = true →
      env.installOk name f = true →
      outTrace (licensePresent name (some f) true true env) =
        [Call.delete ⟨name, name, "*", "*"⟩, Call.install name f] := by
  intro name f hw env sys ifo htest hf hshow hinfo hhw hsys hsyshw hwf hfiles hown hdel hinst
  have h1 : sidPhase name env ⟨[], [], [], ""⟩ = .cont ⟨[], [], [], ""⟩ := by
    rw [sidPhase, hshow]
    exact sidLoop_noop name env sys _ hsys
  have h2 : hwPhase name env ⟨[], [], [], ""⟩ = .cont ⟨[], [], [], ""⟩ := by
    rw [hwPhase, hinfo]
    dsimp only
    rw [hhw]
    dsimp only
    rw [hshow]
    exact hwLoop_noop name hw env sys _ hsyshw
  obtain ⟨ms, hms⟩ := licMsgs_wf "" sys hwf
  have h3 : filePhase name f env ⟨[], [], [], ""⟩ =
      .cont ⟨ms, [], [Call.delete ⟨name, name, "*", "*"⟩, Call.install name f],
        "Installed licenses"⟩ := by
    unfold filePhase
    rw [hfiles]
    unfold fileInstall
    simp only [htest, Bool.false_eq_true, if_false, eq_self_iff_true, if_true, hdel,
      hshow, hms]
    rw [fileOwnInstall, if_pos hown]
    unfold fileInstall2
    simp only [htest, Bool.false_eq_true, if_false, eq_self_iff_true, if_true, hinst]
    rfl
  unfold licensePresent
  dsimp only
  simp only [eq_self_iff_true, if_true]
  rw [h1]
  dsimp only [pthen]
  rw [h2]
  dsimp only [pthen]
  rw [if_neg hf, h3]
  rfl

/-- C10 witness: a concrete run with a markerless license file issues the
wildcard delete followed by the install. -/
theorem c10_witness :
    outTrace (licensePresent "S4H" (some "/f") true true
      { envA with showRes := some [licB], fileLines := fun _ => ["no marker here\n"] }) =
      [Call.delete ⟨"S4H", "S4H", "*", "*"⟩, Call.install "S4H" "/f"] :=
  c10_theorem "S4H" "/f" "H1"
    { envA with showRes := some [licB], fileLines := fun _ => ["no marker here\n"] }
    [licB] [("hardware_key","H1"),("software_products","NetWeaver_HDB")]
    rfl (by decide) rfl rfl rfl (by decide) (by decide) (by decide) (by decide)
    (by decide) rfl rfl

theorem sidLoop_ok (name : String) (env : Env) (htest : env.test = false) :
    ∀ (sys : List Dict) (a : StAcc),
      (∀ lic ∈ sys, wfLic lic) →
      (∀ lic ∈ sys, env.deleteOk (mkSidCall name lic) = true) →
      sidLoop name env sys a = .cont { a with
        old := a.old ++ (sys.filter (fun l => !(licSys l == name))).map
          (fun l => licDesc3 (licSys l) (licHw l) (licProd l)),
        tr := a.tr ++ (sys.filter (fun l => !(licSys l == name))).map
          (fun l => Call.delete (mkSidCall name l)) } := by
  intro sys
  induction sys with
  | nil => intro a _ _; simp [sidLoop]
  | cons lic rest ih =>
    intro a hwf hok
    obtain ⟨hs1, hh1, hp1⟩ := hwf lic (by simp)
    obtain ⟨s, hs⟩ := Option.isSome_iff_exists.mp hs1
    obtain ⟨h, hh⟩ := Option.isSome_iff_exists.mp hh1
    obtain ⟨p, hp⟩ := Option.isSome_iff_exists.mp hp1
    have hls : licSys lic = s := by simp [licSys, hs]
    have hlh : licHw lic = h := by simp [licHw, hh]
    have hlp : licProd lic = p := by simp [licProd, hp]
    rw [sidLoop, hs]
    dsimp only
    by_cases hsn : s = name
    · rw [if_pos hsn]
      rw [ih a (fun l hl => hwf l (List.mem_cons_of_mem _ hl))
        (fun l hl => hok l (List.mem_cons_of_mem _ hl))]
      simp [List.filter_cons, hls, hsn]
    · rw [if_neg hsn, htest]
      simp only [Bool.false_eq_true, if_false]
      have hdel : env.deleteOk ⟨s, name, "*", "*"⟩ = true := by
        have h0 := hok lic (by simp)
        rw [mkSidCall, hls] at h0
        exact h0
      simp only [hdel, eq_self_iff_true, if_true]
      rw [hh, hp]
      dsimp only
      rw [ih _ (fun l hl => hwf l (List.mem_cons_of_mem _ hl))
        (fun l hl => hok l (List.mem_cons_of_mem _ hl))]
      simp [List.filter_cons, hls, hlh, hlp, hsn, mkSidCall, List.append_assoc]

theorem hwLoop_ok (name hw : String) (env : Env) (htest : env.test = false) :
    ∀ (sys : List Dict) (a : StAcc),
      (∀ lic ∈ sys, wfLic lic) →
      (∀ lic ∈ sys, env.deleteOk (mkHwCall name lic) = true) →
      hwLoop name hw env sys a = .cont { a with
        old := a.old ++ (sys.filter (fun l => !(licHw l == hw))).map
          (fun l => licDesc3 (licSys l) (licHw l) (licProd l)),
        tr := a.tr ++ (sys.filter (fun l => !(licHw l == hw))).map
          (fun l => Call.delete (mkHwCall name l)) } := by
  intro sys
  induction sys with
  | nil => intro a _ _; simp [hwLoop]
  | cons lic rest ih =>
    intro a hwf hok
    obtain ⟨hs1, hh1, hp1⟩ := hwf lic (by simp)
    obtain ⟨s, hs⟩ := Option.isSome_iff_exists.mp hs1
    obtain ⟨h, hh⟩ := Option.isSome_iff_exists.mp hh1
    obtain ⟨p, hp⟩ := Option.isSome_iff_exists.mp hp1
    have hls : licSys lic = s := by simp [licSys, hs]
    have hlh : licHw lic = h := by simp [licHw, hh]
    have hlp : licProd lic = p := by simp [licProd, hp]
    rw [hwLoop, hh]
    dsimp only
    by_cases hhw : h = hw
    · rw [if_pos hhw]
      rw [ih a (fun l hl => hwf l (List.mem_cons_of_mem _ hl))
        (fun l hl => hok l (List.mem_cons_of_mem _ hl))]
      simp [List.filter_cons, hlh, hhw]
    · rw [if_neg hhw, htest]
      simp only [Bool.false_eq_true, if_false]
      rw [hs]
      dsimp only
      have hdel : env.deleteOk ⟨s, name, h, "*"⟩ = true := by
        have h0 := hok lic (by simp)
        rw [mkHwCall, hls, hlh] at h0
        exact h0
      simp only [hdel, eq_self_iff_true, if_true]
      rw [hp]
      dsimp only
      rw [ih _ (fun l hl => hwf l (List.mem_cons_of_mem _ hl))
        (fun l hl => hok l (List.mem_cons_of_mem _ hl))]
      simp [List.filter_cons, hls, hlh, hlp, hhw, mkHwCall, List.append_assoc]

/-- C3 counterexample: a foreign-SID license (owner M70, hardware key H1,
product P) is deleted by a call whose `hwkey` and `product` arguments are the
wildcard defaults, not the record's own H1 and P, so the delete is not scoped
to that one record. -/
theorem c3_counterexample :
    licensePresent "S4H" none true true { envA with showRes := some [licAv, licB] } =
      Out.ret ⟨"S4H", some (["SAP system license M70 / H1 / P"], []),
          "System S4H already has a valid license", some true⟩
        [Call.delete ⟨"M70", "S4H", "*", "*"⟩] ∧
    ("*" : String) ≠ "H1" ∧ ("*" : String) ≠ "P" :=
  ⟨rfl, by decide, by decide⟩

/-- C3 (amended): in `license_present` outside dry-run, the foreign-SID pass
deletes every observed record whose `system` differs from the SID with a call
scoped by that record's owner only (hardware key and product stay at the
wildcard `"*"`), and the foreign-hardware-key pass then iterates the
originally observed list again (including records the first pass already
deleted) and deletes every record whose `hardware_key` differs from the
system's hardware key with a call scoped by the record's owner and hardware
key (product stays `"*"`). -/
theorem c3_theorem :
    ∀ (name hw : String) (env : Env) (sys : List Dict) (ifo : Dict),
      env.test = false →
      env.showRes = some sys →
      env.infoRes = some ifo →
      dictGet ifo "hardware_key" = some hw →
      (∀ lic ∈ sys, wfLic lic) →
      (∀ lic ∈ sys, (dictGet lic "software_product").isSome ∧
        (dictGet lic "validity").isSome) →
      (∃ lic ∈ sys, ∃ p, dictGet lic "software_product" = some p ∧
        strStarts p "Maintenance_" = false ∧ dictGet lic "validity" = some "valid") →
      (∀ lic ∈ sys, env.deleteOk (mkSidCall name lic) = true) →
      (∀ lic ∈ sys, env.deleteOk (mkHwCall name lic) = true) →
      outTrace (licensePresent name none true true env) =
        (sys.filter (fun l => !(licSys l == name))).map
          (fun l => Call.delete (mkSidCall name l)) ++
        (sys.filter (fun l => !(licHw l == hw))).map
          (fun l => Call.delete (mkHwCall name l)) := by
  intro name hw env sys ifo htest hshow hinfo hhw hwf hvwf hex hok1 hok2
  unfold licensePresent
  dsimp only
  simp only [eq_self_iff_true, if_true]
  rw [sidPhase, hshow]
  dsimp only
  rw [sidLoop_ok name env htest sys _ hwf hok1]
  dsimp only [pthen]
  rw [hwPhase, hinfo]
  dsimp only
  rw [hhw]
  dsimp only
  rw [hshow]
  dsimp only
  rw [hwLoop_ok name hw env htest sys _ hwf hok2]
  dsimp only [pthen]
  rw [noFilePhase, hshow]
  dsimp only
  rw [validScan_true sys hvwf hex]
  dsimp only
  rw [finish_tr]
  dsimp only [phaseTr]
  simp [List.append_assoc]

/-- C3 witness: the amended statement at a concrete system with one foreign
license: one owner-scoped wildcard delete is issued and no hardware-key
deletes (the keys all match). -/
theorem c3_witness :
    outTrace (licensePresent "S4H" none true true
      { envA with showRes := some [licAv, licB] }) =
      (([licAv, licB] : List Dict).filter (fun l => !(licSys l == "S4H"))).map
        (fun l => Call.delete (mkSidCall "S4H" l)) ++
      (([licAv, licB] : List Dict).filter (fun l => !(licHw l == "H1"))).map
        (fun l => Call.delete (mkHwCall "S4H" l)) :=
  c3_theorem "S4H" "H1" { envA with showRes := some [licAv, licB] } [licAv, licB]
    [("hardware_key","H1"),("software_products","NetWeaver_HDB")]
    rfl rfl rfl rfl (by decide) (by decide)
    ⟨licB, by decide, "NetWeaver_HDB", rfl, rfl, rfl⟩
    (fun l _ => rfl) (fun l _ => rfl)

theorem absLoop_ok (name : String) (removeAll : Bool) (env : Env)
    (htest : env.test = false) :
    ∀ (sys : List Dict) (a : StAcc),
      (∀ lic ∈ sys, wfLic lic) →
      (∀ lic ∈ sys, absPred name removeAll lic = true →
        env.deleteOk (mkAbsCall name lic) = true) →
      absLoop name removeAll env sys a = .cont { a with
        old := a.old ++ (sys.filter (absPred name removeAll)).map
          (fun l => licDesc3 (licSys l) (licHw l) (licProd l)),
        tr := a.tr ++ (sys.filter (absPred name removeAll)).map
          (fun l => Call.delete (mkAbsCall name l)) } := by
  intro sys
  induction sys with
  | nil => intro a _ _; simp [absLoop]
  | cons lic rest ih =>
    intro a hwf hok
    obtain ⟨hs1, hh1, hp1⟩ := hwf lic (by simp)
    obtain ⟨s, hs⟩ := Option.isSome_iff_exists.mp hs1
    obtain ⟨h, hh⟩ := Option.isSome_iff_exists.mp hh1
    obtain ⟨p, hp⟩ := Option.isSome_iff_exists.mp hp1
    have hls : licSys lic = s := by simp [licSys, hs]
    have hlh : licHw lic = h := by simp [licHw, hh]
    have hlp : licProd lic = p := by simp [licProd, hp]
    have ihr := fun (a2 : StAcc) => ih a2 (fun l hl => hwf l (List.mem_cons_of_mem _ hl))
      (fun l hl => hok l (List.mem_cons_of_mem _ hl))
    rw [absLoop]
    dsimp only
    by_cases hm : absPred name removeAll lic = true
    · have hdel : env.deleteOk ⟨name, name, h, p⟩ = true := by
        have h0 := hok lic (by simp) hm
        rw [mkAbsCall, hlh, hlp] at h0
        exact h0
      have hcase :
          (if removeAll then some true
            else match dictGet lic "system" with
              | none => none
              | some s => some (s == name)) = some true := by
        by_cases hra : removeAll = true
        · rw [if_pos hra]
        · rw [if_neg hra, hs]
          dsimp only
          rw [absPred, hls] at hm
          simp only [hra] at hm
          simp only [Bool.false_or] at hm
          rw [hm]
      rw [hcase]
      dsimp only
      rw [if_pos rfl, htest]
      simp only [Bool.false_eq_true, if_false]
      rw [hh, hp]
      dsimp only
      simp only [hdel, eq_self_iff_true, if_true]
      rw [hs]
      dsimp only
      rw [ihr _]
      simp [List.filter_cons, hm, hls, hlh, hlp, mkAbsCall, List.append_assoc]
    · have hra : removeAll = false := by
        cases hr2 : removeAll with
        | false => rfl
        | true => exact absurd (by rw [absPred, hr2]; simp) hm
      subst hra
      have hsn : (s == name) = false := by
        rw [absPred, hls] at hm
        simpa using hm
      simp only [Bool.false_eq_true, if_false]
      rw [hs]
      dsimp only
      rw [hsn]
      simp only [Bool.false_eq_true, if_false]
      rw [ihr a]
      have hmf : absPred name false lic = false := by
        simpa using hm
      simp [List.filter_cons, hmf]

theorem absLoop_abort (name : String) (removeAll : Bool) (env : Env)
    (htest : env.test = false) :
    ∀ (sys : List Dict) (a : StAcc),
      (∀ lic ∈ sys, wfLic lic) →
      (sys.filter (absPred name removeAll)).all (absDel name env) = false →
      absLoop name removeAll env sys a = .abort
        { a with
          old := a.old ++ ((sys.filter (absPred name removeAll)).takeWhile
            (absDel name env)).map (fun l => licDesc3 (licSys l) (licHw l) (licProd l)),
          tr := (a.tr ++ ((sys.filter (absPred name removeAll)).takeWhile
            (absDel name env)).map (fun l => Call.delete (mkAbsCall name l))) ++
            [Call.delete (mkAbsCall name
              (((sys.filter (absPred name removeAll)).dropWhile
                (absDel name env)).headD []))] }
        (cantRemoveAbs
          (licSys (((sys.filter (absPred name removeAll)).dropWhile
            (absDel name env)).headD []))
          (licHw (((sys.filter (absPred name removeAll)).dropWhile
            (absDel name env)).headD []))
          (licProd (((sys.filter (absPred name removeAll)).dropWhile
            (absDel name env)).headD []))) := by
  intro sys
  induction sys with
  | nil => intro a _ hall; simp at hall
  | cons lic rest ih =>
    intro a hwf hall
    obtain ⟨hs1, hh1, hp1⟩ := hwf lic (by simp)
    obtain ⟨s, hs⟩ := Option.isSome_iff_exists.mp hs1
    obtain ⟨h, hh⟩ := Option.isSome_iff_exists.mp hh1
    obtain ⟨p, hp⟩ := Option.isSome_iff_exists.mp hp1
    have hls : licSys lic = s := by simp [licSys, hs]
    have hlh : licHw lic = h := by simp [licHw, hh]
    have hlp : licProd lic = p := by simp [licProd, hp]
    rw [absLoop]
    dsimp only
    by_cases hm : absPred name removeAll lic = true
    · have hcase :
          (if removeAll then some true
            else match dictGet lic "system" with
              | none => none
              | some s => some (s == name)) = some true := by
        by_cases hra : removeAll = true
        · rw [if_pos hra]
        · rw [if_neg hra, hs]
          dsimp only
          rw [absPred, hls] at hm
          simp only [hra] at hm
          simp only [Bool.false_or] at hm
          rw [hm]
      rw [hcase]
      dsimp only
      rw [if_pos rfl, htest]
      simp only [Bool.false_eq_true, if_false]
      rw [hh, hp]
      dsimp only
      by_cases hdel : absDel name env lic = true
      · have hdel2 : env.deleteOk ⟨name, name, h, p⟩ = true := by
          rw [absDel, mkAbsCall, hlh, hlp] at hdel
          exact hdel
        simp only [hdel2, eq_self_iff_true, if_true]
        rw [hs]
        dsimp only
        have hall2 : (rest.filter (absPred name removeAll)).all (absDel name env) = false := by
          rw [List.filter_cons] at hall
          simp only [hm, if_true, List.all_cons, hdel, Bool.true_and] at hall
          exact hall
        rw [ih _ (fun l hl => hwf l (List.mem_cons_of_mem _ hl)) hall2]
        simp [List.filter_cons, hm, List.takeWhile_cons_of_pos, List.dropWhile_cons_of_pos,
          hdel, hls, hlh, hlp, mkAbsCall, List.append_assoc]
      · have hdel2 : env.deleteOk ⟨name, name, h, p⟩ = false := by
          rw [absDel, mkAbsCall, hlh, hlp] at hdel
          simpa using hdel
        simp only [hdel2, Bool.false_eq_true, if_false]
        rw [hs]
        dsimp only
        have hneg : absDel name env lic = false := by simpa using hdel
        simp [List.filter_cons, hm, List.takeWhile_cons_of_neg, List.dropWhile_cons_of_neg,
          hneg, hls, hlh, hlp, mkAbsCall]
    · have hra : removeAll = false := by
        cases hr2 : removeAll with
        | false => rfl
        | true => exact absurd (by rw [absPred, hr2]; simp) hm
      subst hra
      have hsn : (s == name) = false := by
        rw [absPred, hls] at hm
        simpa using hm
      simp only [Bool.false_eq_true, if_false]
      rw [hs]
      dsimp only
      rw [hsn]
      simp only [Bool.false_eq_true, if_false]
      have hmf : absPred name false lic = false := by
        simpa using hm
      rw [List.filter_cons] at hall
      simp only [hmf, Bool.false_eq_true, if_false] at hall
      rw [ih a (fun l hl => hwf l (List.mem_cons_of_mem _ hl)) hall]
      simp [List.filter_cons, hmf]

/-- C6 counterexample: `license_absent` with `remove_all` deletes a foreign
license (owner M70) through a call whose `name` argument is the target SID
S4H, not the record's own owner M70, so the delete is not scoped by the
record's owner. -/
theorem c6_counterexample :
    licenseAbsent "S4H" true envA =
      Out.ret ⟨"S4H", some (["SAP system license M70 / H1 / P"], []), "", some true⟩
        [Call.delete ⟨"S4H", "S4H", "H1", "P"⟩] ∧
    ("S4H" : String) ≠ "M70" :=
  ⟨rfl, by decide⟩

/-- C6 (amended): outside dry-run, `license_absent` deletes exactly the
observed records matching (`remove_all` or `record.system == name`), each via
a delete call scoped by the target SID (passed as both the license owner and
the system), the record's hardware key and the record's software product;
when every such delete succeeds the result is the finalized success
(`"No changes required"` when nothing matched), and on the first failing
delete it aborts with that record's failure comment, a failure result, and no
further delete calls; with `remove_all` false, records of other instances are
untouched. -/
theorem c6_theorem :
    ∀ (name : String) (removeAll : Bool) (env : Env) (sys : List Dict),
      env.test = false →
      env.showRes = some sys →
      (∀ lic ∈ sys, wfLic lic) →
      ((sys.filter (absPred name removeAll)).all (absDel name env) = true →
        licenseAbsent name removeAll env =
          Out.ret (finalize name false
            ⟨(sys.filter (absPred name removeAll)).map
                (fun l => licDesc3 (licSys l) (licHw l) (licProd l)), [],
              (sys.filter (absPred name removeAll)).map
                (fun l => Call.delete (mkAbsCall name l)), ""⟩)
            ((sys.filter (absPred name removeAll)).map
              (fun l => Call.delete (mkAbsCall name l)))) ∧
      ((sys.filter (absPred name removeAll)).all (absDel name env) = false →
        licenseAbsent name removeAll env =
          Out.ret ⟨name,
            some (((sys.filter (absPred name removeAll)).takeWhile (absDel name env)).map
              (fun l => licDesc3 (licSys l) (licHw l) (licProd l)), []),
            cantRemoveAbs
              (licSys (((sys.filter (absPred name removeAll)).dropWhile
                (absDel name env)).headD []))
              (licHw (((sys.filter (absPred name removeAll)).dropWhile
                (absDel name env)).headD []))
              (licProd (((sys.filter (absPred name removeAll)).dropWhile
                (absDel name env)).headD [])),
            some false⟩
            ((((sys.filter (absPred name removeAll)).takeWhile (absDel name env)).map
              (fun l => Call.delete (mkAbsCall name l))) ++
              [Call.delete (mkAbsCall name (((sys.filter (absPred name removeAll)).dropWhile
                (absDel name env)).headD []))])) := by
  intro name removeAll env sys htest hshow hwf
  constructor
  · intro hall
    have hok : ∀ lic ∈ sys, absPred name removeAll lic = true →
        env.deleteOk (mkAbsCall name lic) = true := by
      intro l hl hp
      have h0 := List.all_eq_true.mp hall l (List.mem_filter.mpr ⟨hl, hp⟩)
      rw [absDel] at h0
      exact h0
    unfold licenseAbsent
    dsimp only
    rw [hshow]
    dsimp only
    rw [absLoop_ok name removeAll env htest sys _ hwf hok, htest]
    rfl
  · intro hall
    unfold licenseAbsent
    dsimp only
    rw [hshow]
    dsimp only
    rw [absLoop_abort name removeAll env htest sys _ hwf hall, htest]
    rfl

/-- C6 witness: with `remove_all` false and one foreign plus one own license
observed, exactly the own license is deleted, scoped by the SID, its hardware
key and its product; the foreign license is untouched. -/
theorem c6_witness :
    licenseAbsent "S4H" false { envA with showRes := some [licA, licB] } =
      Out.ret (finalize "S4H" false
        ⟨(([licA, licB] : List Dict).filter (absPred "S4H" false)).map
            (fun l => licDesc3 (licSys l) (licHw l) (licProd l)), [],
          (([licA, licB] : List Dict).filter (absPred "S4H" false)).map
            (fun l => Call.delete (mkAbsCall "S4H" l)), ""⟩)
        ((([licA, licB] : List Dict).filter (absPred "S4H" false)).map
          (fun l => Call.delete (mkAbsCall "S4H" l))) :=
  ( c6_theorem "S4H" false { envA with showRes := some [licA, licB] } [licA, licB]
    rfl rfl (by decide)).1 (by decide)

theorem lic_scan_block : ∀ (ls : List String) (d : Dict),
    lic_scan ((lic_block ls d).2) = lic_scan ls := by
  intro ls
  induction ls with
  | nil => intro d; rfl
  | cons l rest ih =>
    intro d
    rw [lic_block]
    cases hsp : splitFirst '=' l with
    | none => rfl
    | some q =>
      dsimp only
      by_cases hm : licMarker l = true
      · rw [if_pos hm]
      · rw [if_neg hm]
        rw [ih (lic_rename d q.1 (pyStrip q.2))]
        conv_rhs => rw [lic_scan]
        rw [if_neg hm]

theorem lic_scan_eq_spec : ∀ (ls : List String), lic_scan ls = read_lic_file_spec ls := by
  intro ls
  induction ls using read_lic_file_spec.induct with
  | case1 => rw [lic_scan, read_lic_file_spec]
  | case2 l rest hm ih =>
    rw [lic_scan, if_pos hm]
    conv_rhs => rw [read_lic_file_spec]
    rw [if_pos hm]
    rw [← lic_scan_block rest [], ih]
  | case3 l rest hm ih =>
    rw [lic_scan, if_neg hm]
    conv_rhs => rw [read_lic_file_spec]
    rw [if_neg hm]
    exact ih

/-- C9: `read_lic_file` equals the spec's description of the parser — the
index-based scan of the source (which revisits block lines, harmlessly,
because block lines never contain the marker) produces exactly one record per
"Begin SAP License" block, in file order, each block's `KEY=value` lines
mapped through the fixed rename table — and on the spec's own example the
renames apply and the unrecognized `LKEY` key is dropped. -/
theorem c9_theorem :
    (∀ (lines : List String), read_lic_file lines = read_lic_file_spec lines) ∧
    read_lic_file ["Begin SAP License\n","SAPSYSTEM=S4H\n","HARDWARE-KEY=Z01\n",
        "SWPRODUCTNAME=NetWeaver_HDB\n","LKEY=xxxx\n"] =
      [[("system","S4H"),("hardware_key","Z01"),("software_product","NetWeaver_HDB")]] :=
  ⟨fun lines => lic_scan_eq_spec lines, rfl⟩
